import Mathlib

/-!
Shallow embedding of the benchmark-dashboard client (BenchmarkCharts /
ProjectSelector components and the benchmark data model) and proofs of the
claimed properties.  Numeric benchmark values are modelled as rationals,
nullable columns as `Option`, JS objects / URLSearchParams as insertion-ordered
association lists, and the backend as explicit fetch-result inputs to the
pure state-transition functions extracted from the handlers.
-/

set_option linter.unusedVariables false

namespace BenchmarkApp

/-- Keys of the five category columns of the benchmarks table
(`category1` .. `category5` in src/types/benchmark.ts). -/
inductive CatKey
  | category1
  | category2
  | category3
  | category4
  | category5
deriving DecidableEq, Repr

/-- Keys of the five value columns (`value1` .. `value5`). -/
inductive ValKey
  | value1
  | value2
  | value3
  | value4
  | value5
deriving DecidableEq, Repr

/-- One row of the benchmarks table (interface `Benchmark`):
nullable text columns are `Option String`, nullable numeric columns
`Option ℚ`. -/
structure Benchmark where
  id : Nat := 0
  project : String := ""
  timestamp : String := ""
  category1 : Option String := none
  category2 : Option String := none
  category3 : Option String := none
  category4 : Option String := none
  category5 : Option String := none
  value1 : Option ℚ := none
  value2 : Option ℚ := none
  value3 : Option ℚ := none
  value4 : Option ℚ := none
  value5 : Option ℚ := none
  commit : Option String := none
deriving DecidableEq, Repr

/-- Dynamic column access `benchmark[key]` for category columns. -/
def Benchmark.cat (b : Benchmark) : CatKey → Option String
  | .category1 => b.category1
  | .category2 => b.category2
  | .category3 => b.category3
  | .category4 => b.category4
  | .category5 => b.category5

/-- Dynamic column access `benchmark[valueKey]` for value columns. -/
def Benchmark.val (b : Benchmark) : ValKey → Option ℚ
  | .value1 => b.value1
  | .value2 => b.value2
  | .value3 => b.value3
  | .value4 => b.value4
  | .value5 => b.value5

/-- One row of the project-metadata table (interface
`BenchmarkProjectMetadata`). -/
structure ProjectMetadata where
  id : Nat := 0
  project : String := ""
  category1_name : Option String := none
  category2_name : Option String := none
  category3_name : Option String := none
  category4_name : Option String := none
  category5_name : Option String := none
  value1_name : Option String := none
  value2_name : Option String := none
  value3_name : Option String := none
  value4_name : Option String := none
  value5_name : Option String := none
deriving DecidableEq, Repr

/-- Display name declared for a category slot. -/
def ProjectMetadata.catName (p : ProjectMetadata) : CatKey → Option String
  | .category1 => p.category1_name
  | .category2 => p.category2_name
  | .category3 => p.category3_name
  | .category4 => p.category4_name
  | .category5 => p.category5_name

/-- The string name of a category key, as used in URLs, filter objects and
database column references. -/
def catKeyName : CatKey → String
  | .category1 => "category1"
  | .category2 => "category2"
  | .category3 => "category3"
  | .category4 => "category4"
  | .category5 => "category5"

/-- The `activeCategoryFields` memo: the five (key, name) slots in order,
keeping exactly those whose declared name is non-null. -/
def activeCategoryFields (p : ProjectMetadata) : List (CatKey × String) :=
  [CatKey.category1, CatKey.category2, CatKey.category3, CatKey.category4,
    CatKey.category5].filterMap (fun k => (p.catName k).map (fun n => (k, n)))

/-- JS truthiness coercion `x || d` on a nullable string: null and the
empty string are replaced by the default. -/
def orString (d : String) : Option String → String
  | none => d
  | some s => if s = "" then d else s

/-- The `getCategoryKey` callback: per active category field, the row's value
coerced through `|| 'null'`, joined with the pipe separator. -/
def getCategoryKey (fields : List (CatKey × String)) (b : Benchmark) : String :=
  String.intercalate "|" (fields.map (fun f => orString "null" (b.cat f.1)))

/-- The distinct category-combination keys of a row set, as collected into the
`uniqueCombos` set in `fetchBenchmarks` (only membership and size are used). -/
def comboKeys (fields : List (CatKey × String)) (rows : List Benchmark) : List String :=
  (rows.map (getCategoryKey fields)).dedup

/-- Size of the `uniqueCombos` set. -/
def numCombos (fields : List (CatKey × String)) (rows : List Benchmark) : Nat :=
  (comboKeys fields rows).length

/-- The `getCategoryLabelFull` callback: `name: value` per field (value coerced
through `|| 'N/A'`), joined with " | ". -/
def getCategoryLabelFull (fields : List (CatKey × String)) (b : Benchmark) : String :=
  String.intercalate " | " (fields.map (fun f => f.2 ++ ": " ++ orString "N/A" (b.cat f.1)))

/-- The `getCategoryLabelCompact` callback: the coerced values joined with " | ". -/
def getCategoryLabelCompact (fields : List (CatKey × String)) (b : Benchmark) : String :=
  String.intercalate " | " (fields.map (fun f => orString "N/A" (b.cat f.1)))

/-- One entry of the `uniqueCategoryCombinations` memo. -/
structure ComboInfo where
  key : String
  labelFull : String
  labelCompact : String
  sample : Benchmark
deriving DecidableEq, Repr

/-- The `uniqueCategoryCombinations` memo: an insertion-ordered map from
combination key to the first row exhibiting it; one chart line (series) is
drawn per entry. -/
def uniqueCategoryCombinations (fields : List (CatKey × String))
    (rows : List Benchmark) : List ComboInfo :=
  rows.foldl (fun acc b =>
    let k := getCategoryKey fields b
    if acc.any (fun c => c.key == k) then acc
    else acc ++ [{ key := k, labelFull := getCategoryLabelFull fields b,
                   labelCompact := getCategoryLabelCompact fields b, sample := b }]) []

/-- Result record of `calculateStats`. -/
structure Stats where
  avg : ℚ
  min : ℚ
  max : ℚ
  latest : ℚ
  count : Nat
deriving DecidableEq, Repr

/-- The `values` array built inside `calculateStats`: rows whose combination
key matches, mapped to the requested value column, with null entries
filtered out. -/
def statValues (fields : List (CatKey × String)) (vk : ValKey) (ck : String)
    (rows : List Benchmark) : List ℚ :=
  ((rows.filter (fun b => getCategoryKey fields b == ck)).map (fun b => b.val vk)).reduceOption

/-- The `calculateStats` callback: null when there is no non-null observation,
otherwise sum/length, Math.min/Math.max over the spread values, the final
element as `latest`, and the length as `count`. -/
def calculateStats (fields : List (CatKey × String)) (vk : ValKey) (ck : String)
    (rows : List Benchmark) : Option Stats :=
  match statValues fields vk ck rows with
  | [] => none
  | v :: vs =>
    some { avg := (v :: vs).sum / (((v :: vs).length : ℚ))
         , min := vs.foldl min v
         , max := vs.foldl max v
         , latest := (v :: vs).getLast (List.cons_ne_nil v vs)
         , count := (v :: vs).length }

/-- One value of the `timeStampMap` in `getChartDataForValue`: the formatted
bucket timestamp, the raw timestamp of the row that created the bucket, and
the per-combination-key slots of the JS object (insertion-ordered). -/
structure ChartDataPoint where
  timestamp : String
  fullTimestamp : String
  entries : List (String × Option ℚ)
deriving DecidableEq, Repr

/-- JS object property assignment `dataPoint[categoryKey] = value`: replace the
existing property in place, else append a new one. -/
def setEntry : List (String × Option ℚ) → String → Option ℚ → List (String × Option ℚ)
  | [], k, v => [(k, v)]
  | e :: rest, k, v => if e.1 == k then (k, v) :: rest else e :: setEntry rest k v

/-- JS object property read on a data point. -/
def getEntry (l : List (String × Option ℚ)) (k : String) : Option (Option ℚ) :=
  (l.find? (fun e => e.1 == k)).map (fun e => e.2)

/-- One iteration of the `benchmarks.forEach` loop in `getChartDataForValue`.
`fmt` models the minute-resolution `toLocaleString` timestamp formatting,
which is locale dependent and therefore kept abstract. -/
def chartInsert (fmt : String → String) (fields : List (CatKey × String)) (vk : ValKey)
    (m : List ChartDataPoint) (b : Benchmark) : List ChartDataPoint :=
  let ts := fmt b.timestamp
  let m1 := if m.any (fun dp => dp.timestamp == ts) then m
            else m ++ [{ timestamp := ts, fullTimestamp := b.timestamp, entries := [] }]
  m1.map (fun dp =>
    if dp.timestamp == ts then
      { dp with entries := setEntry dp.entries (getCategoryKey fields b) (b.val vk) }
    else dp)

/-- The `getChartDataForValue` callback: fold the rows through the
`timeStampMap` (a JS Map, insertion-ordered) and return its values. -/
def getChartDataForValue (fmt : String → String) (fields : List (CatKey × String))
    (vk : ValKey) (rows : List Benchmark) : List ChartDataPoint :=
  rows.foldl (chartInsert fmt fields vk) []

/-- Read the chart value recorded for a (bucket, combination key) slot:
none when the bucket or the slot is absent, `some v` when the slot holds `v`
(where `v` itself may be null, which recharts draws as a gap). -/
def chartLookup (data : List ChartDataPoint) (bucket k : String) : Option (Option ℚ) :=
  match data.find? (fun dp => dp.timestamp == bucket) with
  | none => none
  | some dp => getEntry dp.entries k

/-- A `CategoryFilters` value as the underlying JS object: an
insertion-ordered list of (category key, selected value) properties.
`JSON.stringify` is injective on these objects, so stringify-equality is
plain list equality. -/
abbrev FilterSet := List (String × String)

/-- The `addRecentFilter` helper, acting on the stored per-project list:
an empty filter object is not added; otherwise it is prepended, entries with
an identical serialization are removed, and the list is cut to 3. -/
def addRecentFilter (filters : FilterSet) (recent : List FilterSet) : List FilterSet :=
  if filters.length = 0 then recent
  else (filters :: recent.filter (fun f => f ≠ filters)).take 3

/-- A sequence of `addRecentFilter` calls against an initially empty store. -/
def applyRecentCalls (calls : List FilterSet) : List FilterSet :=
  calls.foldl (fun acc f => addRecentFilter f acc) []

/-- First-property lookup on an association list (JS object property read,
also `URLSearchParams.get`). -/
def lookupPair (l : List (String × String)) (k : String) : Option String :=
  (l.find? (fun e => e.1 == k)).map (fun e => e.2)

/-- Replace the first pair carrying the key (keeping its position), else
append: JS object property assignment and `URLSearchParams.set`. -/
def setPair : List (String × String) → String → String → List (String × String)
  | [], k, v => [(k, v)]
  | e :: rest, k, v => if e.1 == k then (k, v) :: rest else e :: setPair rest k v

/-- Remove every pair carrying the key: JS `delete obj[key]` and
`URLSearchParams.delete`. -/
def erasePair (l : List (String × String)) (k : String) : List (String × String) :=
  l.filter (fun e => e.1 ≠ k)

/-- Modelled from the spec's words ("deduplicated by value-equality"): two
filter sets are value-equal when they select the same value for every one of
the five category keys, regardless of property order. -/
def filtersValueEqual (f g : FilterSet) : Bool :=
  [CatKey.category1, CatKey.category2, CatKey.category3, CatKey.category4,
    CatKey.category5].all
    (fun k => lookupPair f (catKeyName k) == lookupPair g (catKeyName k))

/-- URLSearchParams, as the ordered pair list of the page query string. -/
abbrev UrlParams := List (String × String)

/-- The slice of BenchmarkCharts component state the claims are about. -/
structure ComponentState where
  selected : FilterSet := []
  benchmarks : List Benchmark := []
  showCharts : Bool := false
  loading : Bool := false
  error : Option String := none
  url : UrlParams := []
  recent : List FilterSet := []
  categories : List (CatKey × List String) := []
deriving DecidableEq, Repr

/-- The `handleCategoryChange` handler: update the selected-filter object
(assign on a non-empty value, delete on the empty value), push every
non-empty selection into the URL, and clean previously-present keys that are
now absent or empty. -/
def handleCategoryChange (ck : String) (v : String) (s : ComponentState) : ComponentState :=
  let newCats := if v ≠ "" then setPair s.selected ck v else erasePair s.selected ck
  let url1 := newCats.foldl
    (fun u e => if e.2 ≠ "" then setPair u e.1 e.2 else erasePair u e.1) s.url
  let url2 := s.selected.foldl
    (fun u e => if (lookupPair newCats e.1).getD "" = "" then erasePair u e.1 else u) url1
  { s with selected := newCats, url := url2 }

/-- The `handleResetFilters` handler: clear the selected filters, leave the
charts view, drop the fetched rows, and delete every active category key from
the URL query string. -/
def handleResetFilters (fields : List (CatKey × String)) (s : ComponentState) : ComponentState :=
  { s with selected := [], showCharts := false, benchmarks := [],
           url := fields.foldl (fun u f => erasePair u (catKeyName f.1)) s.url }

/-- The response of the benchmarks query: returned rows (capped at 10,000 by
the query), the exact total match count, and a possible query error. -/
structure FetchResult where
  data : List Benchmark := []
  count : Option Nat := none
  fetchError : Option String := none
deriving Repr

/-- The truncation warning text (the source formats the count through
`toLocaleString`, which only inserts locale digit separators). -/
def truncationWarning (c : Nat) : String :=
  "Warning: Results limited to 10,000 of " ++ toString c ++
    " total records. Please apply more specific filters to see all data."

/-- The combination-ceiling error text. -/
def tooManyCombosError (n : Nat) : String :=
  "Too many category combinations (" ++ toString n ++
    " found). Please select more specific filters to reduce combinations to 25 or fewer."

/-- The `fetchBenchmarks` function, with the backend response passed in
explicitly: clear the error, record a non-empty effective filter set in the
recent list, then either surface a query error, or warn when the exact count
exceeds the 10,000 cap, reject outright when the distinct combination count
exceeds 25, and otherwise store the rows and show the charts. -/
def fetchBenchmarksStep (fields : List (CatKey × String)) (filters : FilterSet)
    (s : ComponentState) (res : FetchResult) : ComponentState :=
  let s0 := { s with loading := true, error := none }
  let s1 := if filters.length ≠ 0 then { s0 with recent := addRecentFilter filters s0.recent }
            else s0
  match res.fetchError with
  | some msg => { s1 with error := some msg, loading := false }
  | none =>
    let s2 := match res.count with
      | some c => if 10000 < c then { s1 with error := some (truncationWarning c) } else s1
      | none => s1
    let n := numCombos fields res.data
    if 25 < n then { s2 with error := some (tooManyCombosError n), loading := false }
    else { s2 with benchmarks := res.data, showCharts := true, loading := false }

/-- What the charts screen renders in place of the chart area. -/
inductive ChartsBody
  | loadingView
  | errorBanner (msg : String)
  | noData
  | chartsView
deriving DecidableEq, Repr

/-- The body of the charts screen (the `showCharts` branch of the render):
the loading indicator first, then any non-null error as the error banner,
then the empty-result panel, and only otherwise the charts themselves. -/
def renderChartsBody (s : ComponentState) : ChartsBody :=
  if s.loading then .loadingView
  else
    match s.error with
    | some m => .errorBanner m
    | none => if s.benchmarks.length = 0 then .noData else .chartsView

/-- Lexicographic comparison of character lists, the order realized by the
default JS `Array.sort` comparator on strings. -/
def charsLe : List Char → List Char → Bool
  | [], _ => true
  | _ :: _, [] => false
  | a :: as, b :: bs => if a < b then true else if b < a then false else charsLe as bs

/-- Default JS string comparison, on the underlying character sequences. -/
def strLe (a b : String) : Bool := charsLe a.data b.data

/-- String order as a relation, for the sorting machinery. -/
def rStr : String → String → Prop := fun a b => strLe a b = true

instance : DecidableRel rStr := fun a b => instDecidableEqBool (strLe a b) true

/-- The `.sort()` call on the distinct category values (a comparison sort
producing the ordered list). -/
def sortStrings (l : List String) : List String := List.insertionSort rStr l

/-- The category-resolution fan-out of `fetchCategoriesAndExamples`: one
backend `get_distinct_categories` call per active dimension (modelled by
`rpc`), each result sorted; joined so that any single failure fails the
whole resolution. -/
def fetchCategoriesRun (fields : List (CatKey × String))
    (rpc : CatKey → Except String (List String)) :
    Except String (List (CatKey × List String)) :=
  match fields with
  | [] => .ok []
  | f :: rest =>
    match rpc f.1 with
    | .error e => .error e
    | .ok vs =>
      match fetchCategoriesRun rest rpc with
      | .error e => .error e
      | .ok tail => .ok ((f.1, sortStrings vs) :: tail)

/-- The state effect of `fetchCategoriesAndExamples`: on success the resolved
category map is stored wholesale; on any failure the categories state is left
untouched and the error message is surfaced. -/
def fetchCategoriesStep (fields : List (CatKey × String))
    (rpc : CatKey → Except String (List String)) (s : ComponentState) : ComponentState :=
  match fetchCategoriesRun fields rpc with
  | .ok cats => { s with categories := cats, loading := false }
  | .error e => { s with error := some e, loading := false }

/-! ### String-order facts (the JS default sort comparator) -/

theorem charsLe_refl : ∀ l : List Char, charsLe l l = true
  | [] => rfl
  | a :: as => by simp [charsLe, charsLe_refl as]

theorem strLe_refl (s : String) : strLe s s = true := charsLe_refl s.data

theorem charsLe_total : ∀ x y : List Char, charsLe x y = true ∨ charsLe y x = true
  | [], _ => Or.inl rfl
  | _ :: _, [] => Or.inr rfl
  | a :: as, b :: bs => by
    by_cases hab : a < b
    · exact Or.inl (by simp [charsLe, hab])
    · by_cases hba : b < a
      · exact Or.inr (by simp [charsLe, hba])
      · have heq : a = b := le_antisymm (not_lt.mp hba) (not_lt.mp hab)
        subst heq
        rcases charsLe_total as bs with h | h
        · exact Or.inl (by simp [charsLe, h])
        · exact Or.inr (by simp [charsLe, h])

theorem charsLe_trans : ∀ x y z : List Char,
    charsLe x y = true → charsLe y z = true → charsLe x z = true
  | [], _, _, _, _ => rfl
  | a :: as, [], z, h1, _ => by simp [charsLe] at h1
  | _ :: _, _ :: _, [], _, h2 => by simp [charsLe] at h2
  | a :: as, b :: bs, c :: cs, h1, h2 => by
    by_cases hab : a < b
    · by_cases hbc : b < c
      · simp [charsLe, lt_trans hab hbc]
      · by_cases hcb : c < b
        · simp [charsLe, hbc, hcb] at h2
        · have hbceq : b = c := le_antisymm (not_lt.mp hcb) (not_lt.mp hbc)
          subst hbceq
          simp [charsLe, hab]
    · by_cases hba : b < a
      · simp [charsLe, hab, hba] at h1
      · have habeq : a = b := le_antisymm (not_lt.mp hba) (not_lt.mp hab)
        subst habeq
        simp only [charsLe, lt_irrefl, if_false] at h1
        by_cases hac : a < c
        · simp [charsLe, hac]
        · by_cases hca : c < a
          · simp [charsLe, hac, hca] at h2
          · have haceq : a = c := le_antisymm (not_lt.mp hca) (not_lt.mp hac)
            subst haceq
            simp only [charsLe, lt_irrefl, if_false] at h2 ⊢
            exact charsLe_trans as bs cs h1 h2

instance : IsTotal String rStr := ⟨fun a b => charsLe_total a.data b.data⟩

instance : IsTrans String rStr := ⟨fun a b c => charsLe_trans a.data b.data c.data⟩

theorem sortStrings_sorted (l : List String) : (sortStrings l).Sorted rStr :=
  List.sorted_insertionSort rStr l

theorem sortStrings_perm (l : List String) : (sortStrings l).Perm l :=
  List.perm_insertionSort rStr l

/-! ### Concrete fixtures used by witnesses and counterexamples -/

/-- A project with only `category1` active, named "region". -/
def fieldsRegion : List (CatKey × String) := [(CatKey.category1, "region")]

/-- A project with two active categories. -/
def fieldsTwo : List (CatKey × String) :=
  [(CatKey.category1, "c1"), (CatKey.category2, "c2")]

def rowNullCat : Benchmark := { id := 1, timestamp := "t1" }

def rowLitNull : Benchmark := { id := 2, timestamp := "t1", category1 := some "null" }

def rowPipeA : Benchmark :=
  { id := 3, timestamp := "t1", category1 := some "a|b", category2 := some "c" }

def rowPipeB : Benchmark :=
  { id := 4, timestamp := "t1", category1 := some "a", category2 := some "b|c" }

/-- C10: the category-combination key function is not injective: a row whose
category value is SQL null and a row whose value is the literal string "null"
receive the same key, as do rows whose values contain the pipe separator;
such distinct tuples collapse to one key, one chart series and one unit of
the 25-combination ceiling. -/
theorem C10_category_key_collisions :
    (rowNullCat.cat CatKey.category1 ≠ rowLitNull.cat CatKey.category1 ∧
      getCategoryKey fieldsRegion rowNullCat = getCategoryKey fieldsRegion rowLitNull ∧
      numCombos fieldsRegion [rowNullCat, rowLitNull] = 1 ∧
      (uniqueCategoryCombinations fieldsRegion [rowNullCat, rowLitNull]).length = 1) ∧
    ((rowPipeA.cat CatKey.category1, rowPipeA.cat CatKey.category2) ≠
        (rowPipeB.cat CatKey.category1, rowPipeB.cat CatKey.category2) ∧
      getCategoryKey fieldsTwo rowPipeA = getCategoryKey fieldsTwo rowPipeB ∧
      numCombos fieldsTwo [rowPipeA, rowPipeB] = 1 ∧
      (uniqueCategoryCombinations fieldsTwo [rowPipeA, rowPipeB]).length = 1) := by
  decide

/-! ### Recent-filters store (C7) -/

theorem addRecentFilter_eq_of_empty (f : FilterSet) (l : List FilterSet)
    (hf : f.length = 0) : addRecentFilter f l = l := by
  simp [addRecentFilter, hf]

theorem addRecentFilter_eq_of_nonempty (f : FilterSet) (l : List FilterSet)
    (hf : f.length ≠ 0) :
    addRecentFilter f l = (f :: l.filter (fun g => g ≠ f)).take 3 := by
  simp [addRecentFilter, hf]

theorem addRecentFilter_length_le (f : FilterSet) (l : List FilterSet)
    (hl : l.length ≤ 3) : (addRecentFilter f l).length ≤ 3 := by
  by_cases hf : f.length = 0
  · rw [addRecentFilter_eq_of_empty f l hf]; exact hl
  · rw [addRecentFilter_eq_of_nonempty f l hf]; exact List.length_take_le 3 _

theorem addRecentFilter_nodup (f : FilterSet) (l : List FilterSet)
    (hl : l.Nodup) : (addRecentFilter f l).Nodup := by
  by_cases hf : f.length = 0
  · rw [addRecentFilter_eq_of_empty f l hf]; exact hl
  · rw [addRecentFilter_eq_of_nonempty f l hf]
    refine List.Nodup.sublist (List.take_sublist 3 _) ?_
    refine List.nodup_cons.mpr ⟨?_, List.Nodup.filter _ hl⟩
    simp

theorem addRecentFilter_mem (x f : FilterSet) (l : List FilterSet)
    (hx : x ∈ addRecentFilter f l) : (x = f ∧ f ≠ []) ∨ x ∈ l := by
  by_cases hf : f.length = 0
  · rw [addRecentFilter_eq_of_empty f l hf] at hx; exact Or.inr hx
  · rw [addRecentFilter_eq_of_nonempty f l hf] at hx
    have hx' := (List.take_sublist 3 _).mem hx
    rcases List.mem_cons.mp hx' with rfl | hx''
    · exact Or.inl ⟨rfl, fun hnil => hf (by simp [hnil])⟩
    · exact Or.inr (List.mem_of_mem_filter hx'')

theorem applyRecent_fold_invariant (calls : List FilterSet) :
    ∀ init : List FilterSet, init.length ≤ 3 → init.Nodup →
      ((calls.foldl (fun acc f => addRecentFilter f acc) init).length ≤ 3 ∧
        (calls.foldl (fun acc f => addRecentFilter f acc) init).Nodup ∧
        ∀ x ∈ calls.foldl (fun acc f => addRecentFilter f acc) init,
          (x ∈ calls ∧ x ≠ []) ∨ x ∈ init) := by
  induction calls with
  | nil => exact fun init h1 h2 => ⟨h1, h2, fun x hx => Or.inr hx⟩
  | cons c cs ih =>
    intro init h1 h2
    obtain ⟨a1, a2, a3⟩ := ih (addRecentFilter c init)
      (addRecentFilter_length_le c init h1) (addRecentFilter_nodup c init h2)
    refine ⟨a1, a2, fun x hx => ?_⟩
    rcases a3 x hx with ⟨hcs, hne⟩ | hmem
    · exact Or.inl ⟨List.mem_cons_of_mem c hcs, hne⟩
    · rcases addRecentFilter_mem x c init hmem with ⟨hxc, hne⟩ | h
      · subst hxc; exact Or.inl ⟨List.mem_cons_self x cs, hne⟩
      · exact Or.inr h

theorem addRecentFilter_head_tail (f : FilterSet) (l : List FilterSet)
    (hf : f ≠ []) :
    (addRecentFilter f l).head? = some f ∧
    f ∉ (addRecentFilter f l).tail ∧
    ((addRecentFilter f l).tail).Sublist l := by
  have hlen : f.length ≠ 0 := by simpa using hf
  rw [addRecentFilter_eq_of_nonempty f l hlen, List.take_succ_cons]
  refine ⟨rfl, ?_, ?_⟩
  · intro hmem
    have := (List.take_sublist 2 _).mem hmem
    simp at this
  · exact (List.take_sublist 2 _).trans (List.filter_sublist l)

def filtersAB : FilterSet := [("category1", "a"), ("category2", "b")]

def filtersBA : FilterSet := [("category2", "b"), ("category1", "a")]

/-- C7 counterexample: the store is deduplicated by `JSON.stringify` equality,
which is sensitive to the insertion order of the object's properties; adding
the value-equal filter sets `{category1: a, category2: b}` and
`{category2: b, category1: a}` (reachable by selecting the two dimensions in
different orders) leaves two value-equal entries in the store, so the claim
that it never contains two value-equal filter sets is false. -/
theorem C7_recent_filters_counterexample :
    applyRecentCalls [filtersAB, filtersBA] = [filtersBA, filtersAB] ∧
    filtersValueEqual filtersBA filtersAB = true ∧
    filtersBA ≠ filtersAB := by
  decide

/-- C7 amended: for every sequence of `addRecentFilter` calls starting from an
empty store, the list never exceeds 3 entries, never contains two entries
with the same serialization (but value-equal entries with different property
order may coexist), every stored entry is one of the non-empty added filter
sets, an empty filter set leaves the store unchanged, and a non-empty added
set lands at the head with the surviving previous entries behind it in their
previous order (most-recent-first). -/
theorem C7_recent_filters_amended :
    ∀ calls : List FilterSet,
      (applyRecentCalls calls).length ≤ 3 ∧
      (applyRecentCalls calls).Nodup ∧
      (∀ f ∈ applyRecentCalls calls, f ∈ calls ∧ f ≠ []) ∧
      (∀ l : List FilterSet, addRecentFilter [] l = l) ∧
      (∀ (f : FilterSet) (l : List FilterSet), f ≠ [] →
        (addRecentFilter f l).head? = some f ∧
        f ∉ (addRecentFilter f l).tail ∧
        ((addRecentFilter f l).tail).Sublist l) := by
  intro calls
  obtain ⟨a1, a2, a3⟩ :=
    applyRecent_fold_invariant calls [] (by simp) List.nodup_nil
  refine ⟨a1, a2, fun f hf => ?_, fun l => addRecentFilter_eq_of_empty [] l rfl,
    fun f l hf => addRecentFilter_head_tail f l hf⟩
  rcases a3 f hf with h | h
  · exact h
  · simp at h

/-- C7 amended, witness at a concrete call sequence. -/
theorem C7_recent_filters_amended_witness :
    (applyRecentCalls [filtersAB]).length ≤ 3 ∧
    (filtersAB ∈ [filtersAB] ∧ filtersAB ≠ []) ∧
    (addRecentFilter filtersAB []).head? = some filtersAB := by
  have h := C7_recent_filters_amended [filtersAB]
  exact ⟨h.1, h.2.2.1 filtersAB (by decide), (h.2.2.2.2 filtersAB [] (by decide)).1⟩

/-! ### Truncation warning versus chart rendering (C2) -/

def rowUsSingle : Benchmark :=
  { id := 1, timestamp := "t1", category1 := some "us", value1 := some 10 }

def truncatedResult : FetchResult :=
  { data := [rowUsSingle], count := some 10001 }

/-- C2, evaluated at the failing input: when the exact count (10,001) exceeds
the 10,000 cap, `fetchBenchmarks` stores the truncated rows, sets the
charts-shown flag and records the truncation text in the same `error` state;
but the charts-screen render treats any non-null error as fatal and shows
the error banner instead of the charts, so the truncated set is not
rendered, contradicting the claim. -/
theorem C2_truncation_warning_blocks_charts :
    (fetchBenchmarksStep fieldsRegion [] {} truncatedResult).benchmarks = [rowUsSingle] ∧
    (fetchBenchmarksStep fieldsRegion [] {} truncatedResult).showCharts = true ∧
    (fetchBenchmarksStep fieldsRegion [] {} truncatedResult).error =
      some (truncationWarning 10001) ∧
    renderChartsBody (fetchBenchmarksStep fieldsRegion [] {} truncatedResult) =
      ChartsBody.errorBanner (truncationWarning 10001) ∧
    renderChartsBody (fetchBenchmarksStep fieldsRegion [] {} truncatedResult) ≠
      ChartsBody.chartsView := by
  refine ⟨rfl, rfl, rfl, rfl, ?_⟩
  intro h
  exact ChartsBody.noConfusion h

/-! ### Benchmark fetch accept/reject (C1) -/

theorem fetchBenchmarksStep_reject (fields : List (CatKey × String)) (filters : FilterSet)
    (s : ComponentState) (res : FetchResult) (hok : res.fetchError = none)
    (h25 : 25 < numCombos fields res.data) :
    (fetchBenchmarksStep fields filters s res).benchmarks = s.benchmarks ∧
    (fetchBenchmarksStep fields filters s res).showCharts = s.showCharts ∧
    (fetchBenchmarksStep fields filters s res).error =
      some (tooManyCombosError (numCombos fields res.data)) := by
  unfold fetchBenchmarksStep
  rw [hok]
  cases res.count with
  | none => by_cases hf : filters.length ≠ 0 <;> simp [hf, h25]
  | some c =>
      by_cases hf : filters.length ≠ 0 <;> by_cases hc : 10000 < c <;>
        simp [hf, hc, h25]

theorem fetchBenchmarksStep_accept (fields : List (CatKey × String)) (filters : FilterSet)
    (s : ComponentState) (res : FetchResult) (hok : res.fetchError = none)
    (h25 : ¬ 25 < numCombos fields res.data) :
    (fetchBenchmarksStep fields filters s res).benchmarks = res.data ∧
    (fetchBenchmarksStep fields filters s res).showCharts = true := by
  unfold fetchBenchmarksStep
  rw [hok]
  cases res.count with
  | none => by_cases hf : filters.length ≠ 0 <;> simp [hf, h25]
  | some c =>
      by_cases hf : filters.length ≠ 0 <;> by_cases hc : 10000 < c <;>
        simp [hf, hc, h25]

/-- C1: with a successful query response and starting outside the charts view,
the fetch accepts (stores the returned rows and shows the charts) iff the
distinct category-combination count of the returned rows is at most 25; past
the ceiling it surfaces the too-many-combinations error, leaves the stored
rows unchanged and does not enter the charts view. -/
theorem C1_combination_ceiling (fields : List (CatKey × String)) (filters : FilterSet)
    (s : ComponentState) (res : FetchResult)
    (hok : res.fetchError = none) (hsc : s.showCharts = false) :
    (numCombos fields res.data ≤ 25 ↔
      ((fetchBenchmarksStep fields filters s res).showCharts = true ∧
        (fetchBenchmarksStep fields filters s res).benchmarks = res.data)) ∧
    (25 < numCombos fields res.data →
      (fetchBenchmarksStep fields filters s res).error =
        some (tooManyCombosError (numCombos fields res.data)) ∧
      (fetchBenchmarksStep fields filters s res).benchmarks = s.benchmarks ∧
      (fetchBenchmarksStep fields filters s res).showCharts = false) := by
  constructor
  · constructor
    · intro hle
      have h := fetchBenchmarksStep_accept fields filters s res hok (not_lt.mpr hle)
      exact ⟨h.2, h.1⟩
    · rintro ⟨hsc', _⟩
      by_contra hgt
      push_neg at hgt
      have h := fetchBenchmarksStep_reject fields filters s res hok hgt
      rw [h.2.1, hsc] at hsc'
      exact Bool.noConfusion hsc'
  · intro hgt
    have h := fetchBenchmarksStep_reject fields filters s res hok hgt
    exact ⟨h.2.2, h.1, h.2.1.trans hsc⟩

def acceptResult : FetchResult := { data := [rowUsSingle], count := some 1 }

/-- C1 witness at a concrete accepted fetch (one combination). -/
theorem C1_combination_ceiling_witness :
    (numCombos fieldsRegion [rowUsSingle] ≤ 25 ↔
      ((fetchBenchmarksStep fieldsRegion [] {} acceptResult).showCharts = true ∧
        (fetchBenchmarksStep fieldsRegion [] {} acceptResult).benchmarks = [rowUsSingle])) ∧
    (25 < numCombos fieldsRegion [rowUsSingle] →
      (fetchBenchmarksStep fieldsRegion [] {} acceptResult).error =
        some (tooManyCombosError (numCombos fieldsRegion [rowUsSingle])) ∧
      (fetchBenchmarksStep fieldsRegion [] {} acceptResult).benchmarks = [] ∧
      (fetchBenchmarksStep fieldsRegion [] {} acceptResult).showCharts = false) :=
  C1_combination_ceiling fieldsRegion [] {} acceptResult rfl rfl

/-! ### URL parameter lemmas and the reset handler (C9) -/

theorem lookupPair_erasePair_self (l : List (String × String)) (k : String) :
    lookupPair (erasePair l k) k = none := by
  have h : List.find? (fun e => e.1 == k) (erasePair l k) = none := by
    apply List.find?_eq_none.mpr
    intro e he hbeq
    have hne := (List.mem_filter.mp he).2
    simp only [beq_iff_eq] at hbeq
    simp only [decide_eq_true_eq] at hne
    exact hne hbeq
  simp [lookupPair, h]

theorem lookupPair_erasePair_other (l : List (String × String)) (k k' : String)
    (h : k' ≠ k) : lookupPair (erasePair l k) k' = lookupPair l k' := by
  induction l with
  | nil => rfl
  | cons e rest ih =>
    by_cases he : e.1 = k
    · have hdrop : erasePair (e :: rest) k = erasePair rest k := by
        simp [erasePair, List.filter_cons, he]
      have hne : (e.1 == k') = false := by
        simp [he]; exact fun hh => h hh.symm
      rw [hdrop, ih]
      simp [lookupPair, List.find?_cons, hne]
    · have hkeep : erasePair (e :: rest) k = e :: erasePair rest k := by
        simp [erasePair, List.filter_cons, he]
      rw [hkeep]
      by_cases he' : e.1 = k'
      · simp [lookupPair, List.find?_cons, he']
      · have hne : (e.1 == k') = false := by simp [he']
        simp only [lookupPair, List.find?_cons, hne]
        exact ih

theorem lookupPair_foldl_erase (fields : List (CatKey × String)) :
    ∀ (u : UrlParams) (k : String),
      lookupPair (fields.foldl (fun acc f => erasePair acc (catKeyName f.1)) u) k =
        if ∃ f ∈ fields, catKeyName f.1 = k then none else lookupPair u k := by
  induction fields with
  | nil => intro u k; simp
  | cons f fs ih =>
    intro u k
    rw [List.foldl_cons, ih]
    by_cases hex : ∃ g ∈ fs, catKeyName g.1 = k
    · rw [if_pos hex, if_pos ?_]
      obtain ⟨g, hg, hgk⟩ := hex
      exact ⟨g, List.mem_cons_of_mem f hg, hgk⟩
    · rw [if_neg hex]
      by_cases hfk : catKeyName f.1 = k
      · rw [if_pos ⟨f, List.mem_cons_self f fs, hfk⟩]
        subst hfk
        exact lookupPair_erasePair_self u (catKeyName f.1)
      · rw [if_neg ?_]
        · exact lookupPair_erasePair_other u (catKeyName f.1) k (fun hh => hfk hh.symm)
        · rintro ⟨g, hg, hgk⟩
          rcases List.mem_cons.mp hg with rfl | hgfs
          · exact hfk hgk
          · exact hex ⟨g, hgfs, hgk⟩

/-- C9: invoking reset from any component state restores the no-filters
state: the selected-filter object becomes empty, the stored rows are
cleared, the charts-shown flag is false, every active category dimension's
key is removed from the URL query string, and every unrelated URL parameter
is preserved. -/
theorem C9_reset_restores_no_filters (fields : List (CatKey × String))
    (s : ComponentState) :
    (handleResetFilters fields s).selected = [] ∧
    (handleResetFilters fields s).benchmarks = [] ∧
    (handleResetFilters fields s).showCharts = false ∧
    (∀ f ∈ fields, lookupPair (handleResetFilters fields s).url (catKeyName f.1) = none) ∧
    (∀ k : String, (∀ f ∈ fields, catKeyName f.1 ≠ k) →
      lookupPair (handleResetFilters fields s).url k = lookupPair s.url k) := by
  refine ⟨rfl, rfl, rfl, ?_, ?_⟩
  · intro f hf
    show lookupPair (fields.foldl (fun acc g => erasePair acc (catKeyName g.1)) s.url)
      (catKeyName f.1) = none
    rw [lookupPair_foldl_erase]
    exact if_pos ⟨f, hf, rfl⟩
  · intro k hk
    show lookupPair (fields.foldl (fun acc g => erasePair acc (catKeyName g.1)) s.url) k =
      lookupPair s.url k
    rw [lookupPair_foldl_erase]
    exact if_neg (fun hex => by obtain ⟨g, hg, hgk⟩ := hex; exact hk g hg hgk)

/-- The state reached by selecting region=us starting from a URL that carries
only the project parameter. -/
def stateAfterApply : ComponentState :=
  handleCategoryChange "category1" "us" { url := [("project", "API")] }

/-- C9 witness: apply a filter, then reset; the filter key leaves the URL and
the unrelated project parameter survives. -/
theorem C9_reset_restores_no_filters_witness :
    (handleResetFilters fieldsRegion stateAfterApply).selected = [] ∧
    (handleResetFilters fieldsRegion stateAfterApply).benchmarks = [] ∧
    (handleResetFilters fieldsRegion stateAfterApply).showCharts = false ∧
    lookupPair (handleResetFilters fieldsRegion stateAfterApply).url "category1" = none ∧
    lookupPair (handleResetFilters fieldsRegion stateAfterApply).url "project" =
      lookupPair stateAfterApply.url "project" := by
  have h := C9_reset_restores_no_filters fieldsRegion stateAfterApply
  exact ⟨h.1, h.2.1, h.2.2.1,
    h.2.2.2.1 (CatKey.category1, "region") (List.mem_cons_self _ _),
    h.2.2.2.2 "project" (by decide)⟩

/-! ### Category resolution (C8) -/

theorem fetchCategoriesRun_ok_forall2 (rpc : CatKey → Except String (List String)) :
    ∀ (fields : List (CatKey × String)) (cats : List (CatKey × List String)),
      fetchCategoriesRun fields rpc = Except.ok cats →
      List.Forall₂ (fun (f : CatKey × String) (c : CatKey × List String) =>
        c.1 = f.1 ∧ ∃ vs, rpc f.1 = Except.ok vs ∧ c.2.Perm vs ∧ c.2.Sorted rStr)
        fields cats := by
  intro fields
  induction fields with
  | nil =>
    intro cats h
    simp only [fetchCategoriesRun, Except.ok.injEq] at h
    subst h
    exact List.Forall₂.nil
  | cons f fs ih =>
    intro cats h
    simp only [fetchCategoriesRun] at h
    cases hr : rpc f.1 with
    | error e => rw [hr] at h; cases h
    | ok vs =>
      rw [hr] at h
      cases ht : fetchCategoriesRun fs rpc with
      | error e => rw [ht] at h; cases h
      | ok tail =>
        rw [ht] at h
        simp only [Except.ok.injEq] at h
        subst h
        exact List.Forall₂.cons
          ⟨rfl, vs, hr, sortStrings_perm vs, sortStrings_sorted vs⟩ (ih tail ht)

theorem fetchCategoriesRun_error_of_exists (rpc : CatKey → Except String (List String)) :
    ∀ fields : List (CatKey × String),
      (∃ f ∈ fields, ∃ e, rpc f.1 = Except.error e) →
      ∃ m, fetchCategoriesRun fields rpc = Except.error m := by
  intro fields
  induction fields with
  | nil => rintro ⟨f, hf, _⟩; simp at hf
  | cons f fs ih =>
    rintro ⟨g, hg, e, hge⟩
    cases hr : rpc f.1 with
    | error e' => exact ⟨e', by simp [fetchCategoriesRun, hr]⟩
    | ok vs =>
      have hgfs : g ∈ fs := by
        rcases List.mem_cons.mp hg with rfl | hmem
        · rw [hge] at hr; cases hr
        · exact hmem
      obtain ⟨m, hm⟩ := ih ⟨g, hgfs, e, hge⟩
      refine ⟨m, ?_⟩
      simp [fetchCategoriesRun, hr, hm]

/-- C8: category resolution stores, per active dimension and in slot order, a
sorted permutation of the distinct values the backend returned for that
dimension; and if the retrieval of any one dimension fails, the categories
state is not updated at all and a user-visible error message is set, so
partial success never occurs. -/
theorem C8_category_resolution (fields : List (CatKey × String))
    (rpc : CatKey → Except String (List String)) (s : ComponentState) :
    (∀ cats, fetchCategoriesRun fields rpc = Except.ok cats →
      (fetchCategoriesStep fields rpc s).categories = cats ∧
      List.Forall₂ (fun (f : CatKey × String) (c : CatKey × List String) =>
        c.1 = f.1 ∧ ∃ vs, rpc f.1 = Except.ok vs ∧ c.2.Perm vs ∧ c.2.Sorted rStr)
        fields cats) ∧
    ((∃ f ∈ fields, ∃ e, rpc f.1 = Except.error e) →
      (fetchCategoriesStep fields rpc s).categories = s.categories ∧
      ∃ m, (fetchCategoriesStep fields rpc s).error = some m) := by
  constructor
  · intro cats h
    refine ⟨?_, fetchCategoriesRun_ok_forall2 rpc fields cats h⟩
    simp [fetchCategoriesStep, h]
  · intro hex
    obtain ⟨m, hm⟩ := fetchCategoriesRun_error_of_exists rpc fields hex
    refine ⟨?_, m, ?_⟩ <;> simp [fetchCategoriesStep, hm]

/-- Backend stub for the C8 witness: `category1` resolves, the others fail. -/
def rpcRegion : CatKey → Except String (List String) :=
  fun k => match k with
  | CatKey.category1 => Except.ok ["us", "eu"]
  | _ => Except.error "boom"

/-- C8 witness: full success stores the sorted values; a failing dimension
leaves the categories untouched and sets an error. -/
theorem C8_category_resolution_witness :
    (fetchCategoriesStep fieldsRegion rpcRegion {}).categories =
      [(CatKey.category1, sortStrings ["us", "eu"])] ∧
    (fetchCategoriesStep fieldsTwo rpcRegion {}).categories =
      ([] : List (CatKey × List String)) ∧
    ∃ m, (fetchCategoriesStep fieldsTwo rpcRegion {}).error = some m := by
  have h1 := (C8_category_resolution fieldsRegion rpcRegion {}).1
    [(CatKey.category1, sortStrings ["us", "eu"])] rfl
  have h2 := (C8_category_resolution fieldsTwo rpcRegion {}).2
    ⟨(CatKey.category2, "c2"), by decide, "boom", rfl⟩
  exact ⟨h1.1, h2.1, h2.2⟩

/-! ### Statistics (C3, C4) -/

theorem mem_statValues (fields : List (CatKey × String)) (vk : ValKey) (ck : String)
    (rows : List Benchmark) (v : ℚ) :
    v ∈ statValues fields vk ck rows ↔
      ∃ b ∈ rows, getCategoryKey fields b = ck ∧ b.val vk = some v := by
  unfold statValues
  rw [List.reduceOption_mem_iff]
  constructor
  · intro h
    obtain ⟨b, hb, hbv⟩ := List.mem_map.mp h
    have hf := List.mem_filter.mp hb
    exact ⟨b, hf.1, by simpa using hf.2, hbv⟩
  · rintro ⟨b, hb, hk, hv⟩
    exact List.mem_map.mpr ⟨b, List.mem_filter.mpr ⟨hb, by simpa using hk⟩, hv⟩

theorem statValues_length (fields : List (CatKey × String)) (vk : ValKey) (ck : String)
    (rows : List Benchmark) :
    (statValues fields vk ck rows).length =
      ((rows.filter (fun b => getCategoryKey fields b == ck)).filter
        (fun b => (b.val vk).isSome)).length := by
  unfold statValues
  rw [List.reduceOption_length_eq, List.filter_map, List.length_map]
  rfl

theorem statValues_eq_nil_iff (fields : List (CatKey × String)) (vk : ValKey) (ck : String)
    (rows : List Benchmark) :
    statValues fields vk ck rows = [] ↔
      ∀ b ∈ rows, getCategoryKey fields b = ck → b.val vk = none := by
  rw [List.eq_nil_iff_forall_not_mem]
  constructor
  · intro h b hb hk
    cases hv : b.val vk with
    | none => rfl
    | some v =>
      exact absurd ((mem_statValues fields vk ck rows v).mpr ⟨b, hb, hk, hv⟩) (h v)
  · intro h v hv
    obtain ⟨b, hb, hk, hval⟩ := (mem_statValues fields vk ck rows v).mp hv
    rw [h b hb hk] at hval
    cases hval

theorem calculateStats_eq_none_iff (fields : List (CatKey × String)) (vk : ValKey)
    (ck : String) (rows : List Benchmark) :
    calculateStats fields vk ck rows = none ↔ statValues fields vk ck rows = [] := by
  unfold calculateStats
  cases h : statValues fields vk ck rows <;> simp

theorem calculateStats_some (fields : List (CatKey × String)) (vk : ValKey) (ck : String)
    (rows : List Benchmark) (v : ℚ) (vs : List ℚ)
    (h : statValues fields vk ck rows = v :: vs) :
    calculateStats fields vk ck rows =
      some { avg := (v :: vs).sum / (((v :: vs).length : ℚ))
           , min := vs.foldl min v
           , max := vs.foldl max v
           , latest := (v :: vs).getLast (List.cons_ne_nil v vs)
           , count := (v :: vs).length } := by
  unfold calculateStats
  rw [h]

theorem foldl_min_mem (l : List ℚ) : ∀ a : ℚ, l.foldl min a ∈ a :: l := by
  induction l with
  | nil => intro a; exact List.mem_singleton_self a
  | cons x xs ih =>
    intro a
    rw [List.foldl_cons]
    rcases List.mem_cons.mp (ih (min a x)) with h | h
    · rw [h]
      rcases min_choice a x with hm | hm <;> rw [hm] <;> simp
    · simp [List.mem_cons_of_mem, h]

theorem foldl_min_le (l : List ℚ) : ∀ a x : ℚ, x ∈ a :: l → l.foldl min a ≤ x := by
  induction l with
  | nil =>
    intro a x hx
    rw [List.eq_of_mem_singleton hx]
    exact le_refl a
  | cons y ys ih =>
    intro a x hx
    rw [List.foldl_cons]
    have hbase : ys.foldl min (min a y) ≤ min a y :=
      ih (min a y) (min a y) (List.mem_cons_self _ _)
    rcases List.mem_cons.mp hx with hxa | hx'
    · rw [hxa]
      exact le_trans hbase (min_le_left a y)
    · rcases List.mem_cons.mp hx' with hxy | hx''
      · rw [hxy]
        exact le_trans hbase (min_le_right a y)
      · exact ih (min a y) x (List.mem_cons_of_mem _ hx'')

theorem foldl_max_mem (l : List ℚ) : ∀ a : ℚ, l.foldl max a ∈ a :: l := by
  induction l with
  | nil => intro a; exact List.mem_singleton_self a
  | cons x xs ih =>
    intro a
    rw [List.foldl_cons]
    rcases List.mem_cons.mp (ih (max a x)) with h | h
    · rw [h]
      rcases max_choice a x with hm | hm <;> rw [hm] <;> simp
    · simp [List.mem_cons_of_mem, h]

theorem le_foldl_max (l : List ℚ) : ∀ a x : ℚ, x ∈ a :: l → x ≤ l.foldl max a := by
  induction l with
  | nil =>
    intro a x hx
    rw [List.eq_of_mem_singleton hx]
    exact le_refl a
  | cons y ys ih =>
    intro a x hx
    rw [List.foldl_cons]
    have hbase : max a y ≤ ys.foldl max (max a y) :=
      ih (max a y) (max a y) (List.mem_cons_self _ _)
    rcases List.mem_cons.mp hx with hxa | hx'
    · rw [hxa]
      exact le_trans (le_max_left a y) hbase
    · rcases List.mem_cons.mp hx' with hxy | hx''
      · rw [hxy]
        exact le_trans (le_max_right a y) hbase
      · exact ih (max a y) x (List.mem_cons_of_mem _ hx'')

/-- C4: `calculateStats` returns null exactly when the (value, combination)
pair has no non-null observation; otherwise it returns statistics whose
count is the number of rows matching the combination with a non-null value,
whose average is the sum of those observations divided by the count, and
whose min and max are attained lower and upper bounds of those
observations. -/
theorem C4_stats_characterization (fields : List (CatKey × String)) (vk : ValKey)
    (ck : String) (rows : List Benchmark) :
    (calculateStats fields vk ck rows = none ↔
      ∀ b ∈ rows, getCategoryKey fields b = ck → b.val vk = none) ∧
    ((∃ b ∈ rows, getCategoryKey fields b = ck ∧ (b.val vk).isSome = true) →
      ∃ st, calculateStats fields vk ck rows = some st ∧
        st.count =
          ((rows.filter (fun b => getCategoryKey fields b == ck)).filter
            (fun b => (b.val vk).isSome)).length ∧
        st.avg = (statValues fields vk ck rows).sum / ((st.count : ℚ)) ∧
        (∃ b ∈ rows, getCategoryKey fields b = ck ∧ b.val vk = some st.min) ∧
        (∀ b ∈ rows, getCategoryKey fields b = ck → ∀ x, b.val vk = some x → st.min ≤ x) ∧
        (∃ b ∈ rows, getCategoryKey fields b = ck ∧ b.val vk = some st.max) ∧
        (∀ b ∈ rows, getCategoryKey fields b = ck → ∀ x, b.val vk = some x → x ≤ st.max)) := by
  constructor
  · rw [calculateStats_eq_none_iff, statValues_eq_nil_iff]
  · intro hex
    obtain ⟨b0, hb0, hk0, hs0⟩ := hex
    obtain ⟨v0, hv0⟩ := Option.isSome_iff_exists.mp hs0
    have hmem : v0 ∈ statValues fields vk ck rows :=
      (mem_statValues fields vk ck rows v0).mpr ⟨b0, hb0, hk0, hv0⟩
    cases h : statValues fields vk ck rows with
    | nil => rw [h] at hmem; simp at hmem
    | cons v vs =>
      refine ⟨_, calculateStats_some fields vk ck rows v vs h, ?_, ?_, ?_, ?_, ?_, ?_⟩
      · show (v :: vs).length = _
        rw [← h]
        exact statValues_length fields vk ck rows
      · dsimp only
      · have hm := foldl_min_mem vs v
        rw [← h] at hm
        exact (mem_statValues fields vk ck rows _).mp hm
      · intro b hb hk x hx
        have hxmem : x ∈ statValues fields vk ck rows :=
          (mem_statValues fields vk ck rows x).mpr ⟨b, hb, hk, hx⟩
        rw [h] at hxmem
        exact foldl_min_le vs v x hxmem
      · have hm := foldl_max_mem vs v
        rw [← h] at hm
        exact (mem_statValues fields vk ck rows _).mp hm
      · intro b hb hk x hx
        have hxmem : x ∈ statValues fields vk ck rows :=
          (mem_statValues fields vk ck rows x).mpr ⟨b, hb, hk, hx⟩
        rw [h] at hxmem
        exact le_foldl_max vs v x hxmem

def rowUsT1 : Benchmark :=
  { id := 1, timestamp := "1", category1 := some "us", value1 := some 10 }

def rowEuT1 : Benchmark :=
  { id := 2, timestamp := "1", category1 := some "eu", value1 := some 5 }

def rowUsT2 : Benchmark :=
  { id := 3, timestamp := "2", category1 := some "us", value1 := some 20 }

/-- The spec's worked scenario, in ascending timestamp order as fetched. -/
def scenarioRows : List Benchmark := [rowUsT1, rowEuT1, rowUsT2]

/-- C4 witness at the spec scenario, for the "us" combination. -/
theorem C4_stats_characterization_witness :
    ∃ st, calculateStats fieldsRegion ValKey.value1 "us" scenarioRows = some st ∧
      st.count =
        ((scenarioRows.filter (fun b => getCategoryKey fieldsRegion b == "us")).filter
          (fun b => (b.val ValKey.value1).isSome)).length ∧
      st.avg = (statValues fieldsRegion ValKey.value1 "us" scenarioRows).sum / ((st.count : ℚ)) ∧
      (∃ b ∈ scenarioRows, getCategoryKey fieldsRegion b = "us" ∧
        b.val ValKey.value1 = some st.min) ∧
      (∀ b ∈ scenarioRows, getCategoryKey fieldsRegion b = "us" →
        ∀ x, b.val ValKey.value1 = some x → st.min ≤ x) ∧
      (∃ b ∈ scenarioRows, getCategoryKey fieldsRegion b = "us" ∧
        b.val ValKey.value1 = some st.max) ∧
      (∀ b ∈ scenarioRows, getCategoryKey fieldsRegion b = "us" →
        ∀ x, b.val ValKey.value1 = some x → x ≤ st.max) :=
  (C4_stats_characterization fieldsRegion ValKey.value1 "us" scenarioRows).2
    ⟨rowUsT1, by decide, by decide, by decide⟩

theorem getLast_reduceOption_sorted (f : Benchmark → Option ℚ) :
    ∀ l : List Benchmark,
      l.Pairwise (fun a b => strLe a.timestamp b.timestamp = true) →
      ∀ v : ℚ, ((l.map f).reduceOption).getLast? = some v →
      ∃ b ∈ l, f b = some v ∧
        ∀ b' ∈ l, (f b').isSome = true → strLe b'.timestamp b.timestamp = true := by
  intro l
  induction l with
  | nil => intro _ v h; simp [List.reduceOption] at h
  | cons a l ih =>
    intro hp v h
    have hpa : ∀ x ∈ l, strLe a.timestamp x.timestamp = true := (List.pairwise_cons.mp hp).1
    have hp' := (List.pairwise_cons.mp hp).2
    cases hfa : f a with
    | none =>
      rw [List.map_cons, hfa, List.reduceOption_cons_of_none] at h
      obtain ⟨b, hb, hfb, hbound⟩ := ih hp' v h
      refine ⟨b, List.mem_cons_of_mem a hb, hfb, ?_⟩
      intro b' hb' hs
      rcases List.mem_cons.mp hb' with rfl | hb''
      · rw [hfa] at hs; simp at hs
      · exact hbound b' hb'' hs
    | some x =>
      rw [List.map_cons, hfa, List.reduceOption_cons_of_some] at h
      cases hrest : (l.map f).reduceOption with
      | nil =>
        rw [hrest] at h
        have hxv : x = v := by simpa using h
        subst hxv
        refine ⟨a, List.mem_cons_self a l, hfa, ?_⟩
        intro b' hb' hs
        rcases List.mem_cons.mp hb' with rfl | hb''
        · exact strLe_refl _
        · exfalso
          obtain ⟨y, hy⟩ := Option.isSome_iff_exists.mp hs
          have hymem : y ∈ (l.map f).reduceOption :=
            List.reduceOption_mem_iff.mpr (hy ▸ List.mem_map_of_mem f hb'')
          rw [hrest] at hymem
          simp at hymem
      | cons r rs =>
        rw [hrest, List.getLast?_cons_cons] at h
        have h' : ((l.map f).reduceOption).getLast? = some v := by rw [hrest]; exact h
        obtain ⟨b, hb, hfb, hbound⟩ := ih hp' v h'
        refine ⟨b, List.mem_cons_of_mem a hb, hfb, ?_⟩
        intro b' hb' hs
        rcases List.mem_cons.mp hb' with rfl | hb''
        · exact hpa b hb
        · exact hbound b' hb'' hs

/-- C3: with the fetched rows ordered by timestamp ascending, for every
(value, combination) pair with at least one non-null observation the
aggregated `latest` statistic is the value of a matching non-null row whose
timestamp is maximal among the matching non-null rows, i.e. the value of the
chronologically last non-null observation. -/
theorem C3_latest_chronologically_last (fields : List (CatKey × String)) (vk : ValKey)
    (ck : String) (rows : List Benchmark)
    (hsort : rows.Pairwise (fun a b => strLe a.timestamp b.timestamp = true))
    (hex : ∃ b ∈ rows, getCategoryKey fields b = ck ∧ (b.val vk).isSome = true) :
    ∃ st, calculateStats fields vk ck rows = some st ∧
      ∃ b ∈ rows, getCategoryKey fields b = ck ∧ b.val vk = some st.latest ∧
        ∀ b' ∈ rows, getCategoryKey fields b' = ck → (b'.val vk).isSome = true →
          strLe b'.timestamp b.timestamp = true := by
  obtain ⟨b0, hb0, hk0, hs0⟩ := hex
  obtain ⟨v0, hv0⟩ := Option.isSome_iff_exists.mp hs0
  have hmem : v0 ∈ statValues fields vk ck rows :=
    (mem_statValues fields vk ck rows v0).mpr ⟨b0, hb0, hk0, hv0⟩
  cases h : statValues fields vk ck rows with
  | nil => rw [h] at hmem; simp at hmem
  | cons v vs =>
    refine ⟨_, calculateStats_some fields vk ck rows v vs h, ?_⟩
    have hlast : (statValues fields vk ck rows).getLast? =
        some ((v :: vs).getLast (List.cons_ne_nil v vs)) := by
      rw [h]
      exact List.getLast?_eq_getLast _ _
    have hsort' : (rows.filter (fun b => getCategoryKey fields b == ck)).Pairwise
        (fun a b => strLe a.timestamp b.timestamp = true) :=
      hsort.sublist (List.filter_sublist rows)
    obtain ⟨b, hbf, hfb, hbound⟩ := getLast_reduceOption_sorted (fun b => b.val vk)
      (rows.filter (fun b => getCategoryKey fields b == ck)) hsort' _ hlast
    refine ⟨b, List.mem_of_mem_filter hbf, by simpa using (List.mem_filter.mp hbf).2,
      hfb, ?_⟩
    intro b' hb' hk' hs'
    exact hbound b' (List.mem_filter.mpr ⟨hb', by simpa using hk'⟩) hs'

/-- C3 witness at the spec scenario (stats for the "us" combination;
latest is the t=2 observation). -/
theorem C3_latest_chronologically_last_witness :
    ∃ st, calculateStats fieldsRegion ValKey.value1 "us" scenarioRows = some st ∧
      ∃ b ∈ scenarioRows, getCategoryKey fieldsRegion b = "us" ∧
        b.val ValKey.value1 = some st.latest ∧
        ∀ b' ∈ scenarioRows, getCategoryKey fieldsRegion b' = "us" →
          (b'.val ValKey.value1).isSome = true →
          strLe b'.timestamp b.timestamp = true :=
  C3_latest_chronologically_last fieldsRegion ValKey.value1 "us" scenarioRows
    (by decide) ⟨rowUsT1, by decide, by decide, by decide⟩

/-! ### Chart bucketing (C5, C6) -/

theorem getEntry_nil (k : String) : getEntry [] k = none := rfl

theorem getEntry_cons (e : String × Option ℚ) (l : List (String × Option ℚ)) (k : String) :
    getEntry (e :: l) k = if e.1 = k then some e.2 else getEntry l k := by
  by_cases h : e.1 = k <;> simp [getEntry, List.find?_cons, h]

theorem setEntry_cons_eq (e : String × Option ℚ) (rest : List (String × Option ℚ))
    (k : String) (v : Option ℚ) (he : e.1 = k) :
    setEntry (e :: rest) k v = (k, v) :: rest := by
  simp [setEntry, he]

theorem setEntry_cons_ne (e : String × Option ℚ) (rest : List (String × Option ℚ))
    (k : String) (v : Option ℚ) (he : e.1 ≠ k) :
    setEntry (e :: rest) k v = e :: setEntry rest k v := by
  simp [setEntry, he]

theorem getEntry_setEntry (l : List (String × Option ℚ)) (k k' : String) (v : Option ℚ) :
    getEntry (setEntry l k v) k' = if k = k' then some v else getEntry l k' := by
  induction l with
  | nil =>
    show getEntry [(k, v)] k' = _
    rw [getEntry_cons]
  | cons e rest ih =>
    by_cases he : e.1 = k
    · rw [setEntry_cons_eq e rest k v he, getEntry_cons, getEntry_cons]
      by_cases h : k = k' <;> simp [h, he]
    · rw [setEntry_cons_ne e rest k v he, getEntry_cons, getEntry_cons, ih]
      by_cases h : k = k'
      · have hne : e.1 ≠ k' := h ▸ he
        simp [h, hne]
      · simp [h]

theorem chartLookup_eq_bind (data : List ChartDataPoint) (bucket k : String) :
    chartLookup data bucket k =
      (data.find? (fun dp => dp.timestamp == bucket)).bind (fun dp => getEntry dp.entries k) := by
  cases h : data.find? (fun dp => dp.timestamp == bucket) <;> simp [chartLookup, h]

theorem find?_timestamp_map (ts bucket : String)
    (upd : ChartDataPoint → List (String × Option ℚ)) (l : List ChartDataPoint) :
    ((l.map (fun dp => if dp.timestamp == ts then { dp with entries := upd dp } else dp)).find?
        (fun dp => dp.timestamp == bucket)) =
      ((l.find? (fun dp => dp.timestamp == bucket)).map
        (fun dp => if dp.timestamp == ts then { dp with entries := upd dp } else dp)) := by
  induction l with
  | nil => rfl
  | cons dp l ih =>
    have hts : (if dp.timestamp == ts then { dp with entries := upd dp } else dp).timestamp
        = dp.timestamp := by
      by_cases h : dp.timestamp = ts <;> simp [h]
    simp only [List.map_cons, List.find?_cons, hts]
    cases hcond : (dp.timestamp == bucket) with
    | true => rfl
    | false => exact ih

theorem chartLookup_chartInsert (fmt : String → String) (fields : List (CatKey × String))
    (vk : ValKey) (m : List ChartDataPoint) (b : Benchmark) (bucket k : String) :
    chartLookup (chartInsert fmt fields vk m b) bucket k =
      if fmt b.timestamp = bucket ∧ getCategoryKey fields b = k then some (b.val vk)
      else chartLookup m bucket k := by
  have hinsert : chartInsert fmt fields vk m b =
      (if m.any (fun dp => dp.timestamp == fmt b.timestamp) then m
        else m ++ [⟨fmt b.timestamp, b.timestamp, []⟩]).map
        (fun dp => if dp.timestamp == fmt b.timestamp then
          { dp with entries := setEntry dp.entries (getCategoryKey fields b) (b.val vk) }
          else dp) := rfl
  rw [hinsert, chartLookup_eq_bind, find?_timestamp_map, chartLookup_eq_bind]
  by_cases hany : m.any (fun dp => dp.timestamp == fmt b.timestamp) = true
  · rw [if_pos hany]
    cases hfind : m.find? (fun dp => dp.timestamp == bucket) with
    | none =>
      have hne : ¬ (fmt b.timestamp = bucket ∧ getCategoryKey fields b = k) := by
        rintro ⟨hts, _⟩
        obtain ⟨dp, hdp, hdpts⟩ := List.any_eq_true.mp hany
        exact List.find?_eq_none.mp hfind dp hdp (by simpa [← hts] using hdpts)
      rw [if_neg hne]
      rfl
    | some dp0 =>
      have hdp0 : dp0.timestamp = bucket := by simpa using List.find?_some hfind
      by_cases htb : fmt b.timestamp = bucket
      · have hmatch : (dp0.timestamp == fmt b.timestamp) = true := by
          simp [hdp0, htb]
        simp only [Option.map_some', Option.some_bind, hmatch, if_true]
        rw [getEntry_setEntry]
        by_cases hck : getCategoryKey fields b = k
        · rw [if_pos hck, if_pos ⟨htb, hck⟩]
        · rw [if_neg hck, if_neg (fun hc => hck hc.2)]
      · have hmatch : (dp0.timestamp == fmt b.timestamp) = false := by
          simp [hdp0]
          exact fun hh => htb hh.symm
        simp only [Option.map_some', Option.some_bind, hmatch, Bool.false_eq_true, if_false]
        rw [if_neg (fun hc => htb hc.1)]
  · rw [if_neg hany]
    have hnone : ∀ dp ∈ m, ¬ (dp.timestamp == fmt b.timestamp) = true := by
      intro dp hdp h
      exact hany (List.any_eq_true.mpr ⟨dp, hdp, h⟩)
    rw [List.find?_append]
    by_cases htb : fmt b.timestamp = bucket
    · have hfindm : m.find? (fun dp => dp.timestamp == bucket) = none := by
        apply List.find?_eq_none.mpr
        intro dp hdp h
        exact hnone dp hdp (by simpa [htb] using h)
      have hfindnew :
          ([(⟨fmt b.timestamp, b.timestamp, []⟩ : ChartDataPoint)].find?
            (fun dp => dp.timestamp == bucket)) =
            some (⟨fmt b.timestamp, b.timestamp, []⟩ : ChartDataPoint) := by
        apply List.find?_cons_of_pos
        simpa using htb
      rw [hfindm, hfindnew]
      simp only [Option.none_or, Option.map_some', Option.some_bind]
      have hcnd : ((⟨fmt b.timestamp, b.timestamp, []⟩ : ChartDataPoint).timestamp
          == fmt b.timestamp) = true := by simp
      rw [if_pos hcnd]
      show getEntry (setEntry [] (getCategoryKey fields b) (b.val vk)) k = _
      rw [show setEntry [] (getCategoryKey fields b) (b.val vk) =
        [(getCategoryKey fields b, b.val vk)] from rfl, getEntry_cons]
      by_cases hck : getCategoryKey fields b = k
      · rw [if_pos hck, if_pos ⟨htb, hck⟩]
      · rw [if_neg hck, if_neg (fun hc => hck hc.2)]
        rfl
    · have hfindnew :
          ([(⟨fmt b.timestamp, b.timestamp, []⟩ : ChartDataPoint)].find?
            (fun dp => dp.timestamp == bucket)) = none := by
        apply List.find?_eq_none.mpr
        intro dp hdp h
        simp only [List.mem_singleton] at hdp
        rw [hdp] at h
        exact htb (by simpa using h)
      rw [hfindnew]
      cases hfindm : m.find? (fun dp => dp.timestamp == bucket) with
      | none =>
        rw [if_neg (fun hc => htb hc.1)]
        rfl
      | some dp0 =>
        have hdp0 : dp0.timestamp = bucket := by simpa using List.find?_some hfindm
        have hmatch : (dp0.timestamp == fmt b.timestamp) = false := by
          simp [hdp0]
          exact fun hh => htb hh.symm
        simp only [Option.or_some, Option.map_some', Option.some_bind, hmatch,
          Bool.false_eq_true, if_false]
        rw [if_neg (fun hc => htb hc.1)]

theorem chartLookup_foldl (fmt : String → String) (fields : List (CatKey × String))
    (vk : ValKey) (rows : List Benchmark) :
    ∀ (m : List ChartDataPoint) (bucket k : String),
      chartLookup (rows.foldl (chartInsert fmt fields vk) m) bucket k =
        match (rows.filter (fun b => fmt b.timestamp == bucket &&
            getCategoryKey fields b == k)).getLast? with
        | none => chartLookup m bucket k
        | some b => some (b.val vk) := by
  induction rows with
  | nil => intro m bucket k; rfl
  | cons b rows ih =>
    intro m bucket k
    rw [List.foldl_cons, ih, List.filter_cons]
    by_cases hp : (fmt b.timestamp == bucket && getCategoryKey fields b == k) = true
    · rw [if_pos hp]
      have hcond : fmt b.timestamp = bucket ∧ getCategoryKey fields b = k := by
        have hsplit := Bool.and_eq_true_iff.mp hp
        exact ⟨by simpa using hsplit.1, by simpa using hsplit.2⟩
      cases hl : (rows.filter (fun b => fmt b.timestamp == bucket &&
          getCategoryKey fields b == k)).getLast? with
      | none =>
        have hnil : rows.filter (fun b => fmt b.timestamp == bucket &&
            getCategoryKey fields b == k) = [] := by
          cases hfl : rows.filter (fun b => fmt b.timestamp == bucket &&
              getCategoryKey fields b == k) with
          | nil => rfl
          | cons x xs => rw [hfl] at hl; simp [List.getLast?] at hl
        rw [hnil]
        show chartLookup (chartInsert fmt fields vk m b) bucket k = some (b.val vk)
        rw [chartLookup_chartInsert, if_pos hcond]
      | some b' =>
        cases hfl : rows.filter (fun b => fmt b.timestamp == bucket &&
            getCategoryKey fields b == k) with
        | nil => rw [hfl] at hl; cases hl
        | cons x xs =>
          rw [hfl] at hl
          rw [List.getLast?_cons_cons, hl]
    · rw [if_neg hp]
      have hcond : ¬ (fmt b.timestamp = bucket ∧ getCategoryKey fields b = k) := by
        rintro ⟨h1, h2⟩
        exact hp (Bool.and_eq_true_iff.mpr ⟨by simpa using h1, by simpa using h2⟩)
      cases hl : (rows.filter (fun b => fmt b.timestamp == bucket &&
          getCategoryKey fields b == k)).getLast? with
      | none =>
        show chartLookup (chartInsert fmt fields vk m b) bucket k = chartLookup m bucket k
        rw [chartLookup_chartInsert, if_neg hcond]
      | some b' => rfl

theorem chartLookup_spec (fmt : String → String) (fields : List (CatKey × String))
    (vk : ValKey) (rows : List Benchmark) (bucket k : String) :
    chartLookup (getChartDataForValue fmt fields vk rows) bucket k =
      ((rows.filter (fun b => fmt b.timestamp == bucket &&
          getCategoryKey fields b == k)).getLast?).map (fun b => b.val vk) := by
  show chartLookup (rows.foldl (chartInsert fmt fields vk) []) bucket k = _
  rw [chartLookup_foldl]
  cases (rows.filter (fun b => fmt b.timestamp == bucket &&
      getCategoryKey fields b == k)).getLast? <;> rfl

theorem chartInsert_timestamps (fmt : String → String) (fields : List (CatKey × String))
    (vk : ValKey) (m : List ChartDataPoint) (b : Benchmark) :
    (chartInsert fmt fields vk m b).map (fun dp => dp.timestamp) =
      if m.any (fun dp => dp.timestamp == fmt b.timestamp)
      then m.map (fun dp => dp.timestamp)
      else m.map (fun dp => dp.timestamp) ++ [fmt b.timestamp] := by
  have hmap : ∀ l : List ChartDataPoint,
      ((l.map (fun dp => if dp.timestamp == fmt b.timestamp then
        { dp with entries := setEntry dp.entries (getCategoryKey fields b) (b.val vk) }
        else dp)).map (fun dp => dp.timestamp)) = l.map (fun dp => dp.timestamp) := by
    intro l
    induction l with
    | nil => rfl
    | cons dp l ih =>
      simp only [List.map_cons, ih]
      congr 1
      by_cases h : dp.timestamp = fmt b.timestamp <;> simp [h]
  have hins : chartInsert fmt fields vk m b =
      (if m.any (fun dp => dp.timestamp == fmt b.timestamp) then m
        else m ++ [⟨fmt b.timestamp, b.timestamp, []⟩]).map
        (fun dp => if dp.timestamp == fmt b.timestamp then
          { dp with entries := setEntry dp.entries (getCategoryKey fields b) (b.val vk) }
          else dp) := rfl
  rw [hins]
  by_cases hany : m.any (fun dp => dp.timestamp == fmt b.timestamp) = true
  · rw [if_pos hany, if_pos hany, hmap]
  · rw [if_neg hany, if_neg hany, hmap, List.map_append]
    rfl

theorem chartData_timestamps_nodup (fmt : String → String) (fields : List (CatKey × String))
    (vk : ValKey) (rows : List Benchmark) :
    ((getChartDataForValue fmt fields vk rows).map (fun dp => dp.timestamp)).Nodup := by
  suffices h : ∀ m : List ChartDataPoint, (m.map (fun dp => dp.timestamp)).Nodup →
      ((rows.foldl (chartInsert fmt fields vk) m).map (fun dp => dp.timestamp)).Nodup by
    exact h [] (by simp)
  induction rows with
  | nil => exact fun m hm => hm
  | cons b rows ih =>
    intro m hm
    rw [List.foldl_cons]
    apply ih
    rw [chartInsert_timestamps]
    by_cases hany : m.any (fun dp => dp.timestamp == fmt b.timestamp) = true
    · rw [if_pos hany]; exact hm
    · rw [if_neg hany]
      have hnotmem : fmt b.timestamp ∉ m.map (fun dp => dp.timestamp) := by
        intro hmem
        obtain ⟨dp, hdp, hdp2⟩ := List.mem_map.mp hmem
        exact hany (List.any_eq_true.mpr ⟨dp, hdp, by simp [hdp2]⟩)
      simp [List.nodup_append, hm, hnotmem]

theorem mem_keys_setEntry (l : List (String × Option ℚ)) (k x : String) (v : Option ℚ)
    (hx : x ∈ (setEntry l k v).map (fun e => e.1)) :
    x = k ∨ x ∈ l.map (fun e => e.1) := by
  induction l with
  | nil =>
    simp only [setEntry, List.map_cons, List.map_nil, List.mem_singleton] at hx
    exact Or.inl hx
  | cons e rest ih =>
    by_cases he : e.1 = k
    · rw [setEntry_cons_eq e rest k v he] at hx
      simp only [List.map_cons, List.mem_cons] at hx ⊢
      rcases hx with h | h
      · exact Or.inl h
      · exact Or.inr (Or.inr h)
    · rw [setEntry_cons_ne e rest k v he] at hx
      simp only [List.map_cons, List.mem_cons] at hx ⊢
      rcases hx with h | h
      · exact Or.inr (Or.inl h)
      · rcases ih h with h' | h'
        · exact Or.inl h'
        · exact Or.inr (Or.inr h')

theorem setEntry_keys_nodup (l : List (String × Option ℚ)) (k : String) (v : Option ℚ)
    (h : (l.map (fun e => e.1)).Nodup) :
    ((setEntry l k v).map (fun e => e.1)).Nodup := by
  induction l with
  | nil => simp [setEntry]
  | cons e rest ih =>
    rw [List.map_cons, List.nodup_cons] at h
    by_cases he : e.1 = k
    · rw [setEntry_cons_eq e rest k v he, List.map_cons, List.nodup_cons]
      exact ⟨he ▸ h.1, h.2⟩
    · rw [setEntry_cons_ne e rest k v he, List.map_cons, List.nodup_cons]
      refine ⟨?_, ih h.2⟩
      intro hmem
      rcases mem_keys_setEntry rest k e.1 v hmem with h' | h'
      · exact he h'
      · exact h.1 h'

theorem chartData_entries_nodup (fmt : String → String) (fields : List (CatKey × String))
    (vk : ValKey) (rows : List Benchmark) :
    ∀ dp ∈ getChartDataForValue fmt fields vk rows,
      ((dp.entries.map (fun e => e.1)).Nodup) := by
  suffices h : ∀ m : List ChartDataPoint,
      (∀ dp ∈ m, ((dp.entries.map (fun e => e.1)).Nodup)) →
      ∀ dp ∈ rows.foldl (chartInsert fmt fields vk) m,
        ((dp.entries.map (fun e => e.1)).Nodup) by
    exact h [] (by simp)
  induction rows with
  | nil => exact fun m hm => hm
  | cons b rows ih =>
    intro m hm
    rw [List.foldl_cons]
    apply ih
    intro dp hdp
    have hins : chartInsert fmt fields vk m b =
        (if m.any (fun dp => dp.timestamp == fmt b.timestamp) then m
          else m ++ [⟨fmt b.timestamp, b.timestamp, []⟩]).map
          (fun dp => if dp.timestamp == fmt b.timestamp then
            { dp with entries := setEntry dp.entries (getCategoryKey fields b) (b.val vk) }
            else dp) := rfl
    rw [hins] at hdp
    obtain ⟨dp0, hdp0, hdp0eq⟩ := List.mem_map.mp hdp
    have hdp0nodup : (dp0.entries.map (fun e => e.1)).Nodup := by
      by_cases hany : m.any (fun dp => dp.timestamp == fmt b.timestamp) = true
      · rw [if_pos hany] at hdp0
        exact hm dp0 hdp0
      · rw [if_neg hany] at hdp0
        rcases List.mem_append.mp hdp0 with h | h
        · exact hm dp0 h
        · simp only [List.mem_singleton] at h
          rw [h]
          simp
    rw [← hdp0eq]
    by_cases hcase : dp0.timestamp = fmt b.timestamp
    · have hc : (dp0.timestamp == fmt b.timestamp) = true := by simpa using hcase
      rw [if_pos hc]
      exact setEntry_keys_nodup dp0.entries (getCategoryKey fields b) (b.val vk) hdp0nodup
    · have hc : ¬ (dp0.timestamp == fmt b.timestamp) = true := by simpa using hcase
      rw [if_neg hc]
      exact hdp0nodup

/-- C6: for every value dimension the chart data has one data point per
formatted-timestamp bucket (bucket labels are pairwise distinct), each data
point holds at most one slot per category-combination key, and the value in
the (bucket, key) slot is exactly the value of the last row of the fetch
order that falls in that bucket with that key — last write wins, no
averaging within a bucket. -/
theorem C6_bucket_last_write_wins (fmt : String → String) (fields : List (CatKey × String))
    (vk : ValKey) (rows : List Benchmark) :
    ((getChartDataForValue fmt fields vk rows).map (fun dp => dp.timestamp)).Nodup ∧
    (∀ dp ∈ getChartDataForValue fmt fields vk rows,
      ((dp.entries.map (fun e => e.1)).Nodup)) ∧
    (∀ bucket k : String,
      chartLookup (getChartDataForValue fmt fields vk rows) bucket k =
        ((rows.filter (fun b => fmt b.timestamp == bucket &&
            getCategoryKey fields b == k)).getLast?).map (fun b => b.val vk)) :=
  ⟨chartData_timestamps_nodup fmt fields vk rows,
   chartData_entries_nodup fmt fields vk rows,
   fun bucket k => chartLookup_spec fmt fields vk rows bucket k⟩

def rowOver1 : Benchmark :=
  { id := 1, timestamp := "t1", category1 := some "us", value1 := some 10 }

def rowOver2 : Benchmark :=
  { id := 2, timestamp := "t1", category1 := some "us", value1 := some 20 }

/-- The single data point produced by the two overwriting rows. -/
def overwritePoint : ChartDataPoint := ⟨"t1", "t1", [("us", some 20)]⟩

/-- C6 witness: two rows in the same bucket with the same key; the later
value 20 overwrites the earlier 10. -/
theorem C6_bucket_last_write_wins_witness :
    ((getChartDataForValue id fieldsRegion ValKey.value1 [rowOver1, rowOver2]).map
      (fun dp => dp.timestamp)).Nodup ∧
    ((overwritePoint.entries.map (fun e => e.1)).Nodup) ∧
    chartLookup (getChartDataForValue id fieldsRegion ValKey.value1 [rowOver1, rowOver2])
      "t1" "us" = some (some 20) := by
  have h := C6_bucket_last_write_wins id fieldsRegion ValKey.value1 [rowOver1, rowOver2]
  refine ⟨h.1, h.2.1 overwritePoint (by decide), ?_⟩
  rw [h.2.2 "t1" "us"]
  decide

/-! ### Null observations (C5) -/

theorem statValues_filter_isSome (fields : List (CatKey × String)) (vk : ValKey)
    (ck : String) (rows : List Benchmark) :
    statValues fields vk ck (rows.filter (fun b => (b.val vk).isSome)) =
      statValues fields vk ck rows := by
  unfold statValues
  induction rows with
  | nil => rfl
  | cons b rows ih =>
    rw [List.filter_cons]
    by_cases hv : ((b.val vk).isSome : Prop)
    · rw [if_pos hv, List.filter_cons, List.filter_cons]
      by_cases hk : ((getCategoryKey fields b == ck) : Prop)
      · rw [if_pos hk, if_pos hk, List.map_cons, List.map_cons]
        obtain ⟨v, hbv⟩ := Option.isSome_iff_exists.mp hv
        rw [hbv, List.reduceOption_cons_of_some, List.reduceOption_cons_of_some, ih]
      · rw [if_neg hk, if_neg hk]
        exact ih
    · rw [if_neg hv, List.filter_cons]
      by_cases hk : ((getCategoryKey fields b == ck) : Prop)
      · rw [if_pos hk, List.map_cons]
        have hnone : b.val vk = none := by
          cases hbv : b.val vk with
          | none => rfl
          | some v => rw [hbv] at hv; simp at hv
        rw [hnone, List.reduceOption_cons_of_none]
        exact ih
      · rw [if_neg hk]
        exact ih

theorem calculateStats_filter_isSome (fields : List (CatKey × String)) (vk : ValKey)
    (ck : String) (rows : List Benchmark) :
    calculateStats fields vk ck (rows.filter (fun b => (b.val vk).isSome)) =
      calculateStats fields vk ck rows := by
  unfold calculateStats
  rw [statValues_filter_isSome]

def rowGap1 : Benchmark :=
  { id := 1, timestamp := "t1", category1 := some "us", value1 := some 10 }

def rowGap2 : Benchmark :=
  { id := 2, timestamp := "t1", category1 := some "us", value1 := none }

/-- C5 counterexample: a null-valued row does affect the data point recorded
for its (bucket, combination) slot: with a 10-valued row followed by a
null-valued row in the same bucket and combination, the slot holds null,
while without the null row it holds 10. -/
theorem C5_null_rows_counterexample :
    chartLookup (getChartDataForValue id fieldsRegion ValKey.value1 [rowGap1, rowGap2])
      "t1" "us" = some none ∧
    chartLookup (getChartDataForValue id fieldsRegion ValKey.value1
      ([rowGap1, rowGap2].filter (fun b => (b.val ValKey.value1).isSome))) "t1" "us" =
      some (some 10) := by
  decide

/-- C5 amended: rows with a null value for a dimension are excluded from that
dimension's statistics (removing them does not change `calculateStats`), and
in the chart they contribute gaps rather than zeros: the (bucket, key) slot
always holds the raw (possibly null) value of the last matching row, so a
trailing null row overwrites the slot with null instead of leaving it
untouched. -/
theorem C5_null_rows_amended (fmt : String → String) (fields : List (CatKey × String))
    (vk : ValKey) (ck : String) (rows : List Benchmark) :
    calculateStats fields vk ck (rows.filter (fun b => (b.val vk).isSome)) =
      calculateStats fields vk ck rows ∧
    (∀ bucket k : String,
      chartLookup (getChartDataForValue fmt fields vk rows) bucket k =
        ((rows.filter (fun b => fmt b.timestamp == bucket &&
            getCategoryKey fields b == k)).getLast?).map (fun b => b.val vk)) :=
  ⟨calculateStats_filter_isSome fields vk ck rows,
   fun bucket k => chartLookup_spec fmt fields vk rows bucket k⟩

end BenchmarkApp
